import Mathlib

/-
Verification of the eidos spell-stack runtime.

The development shallowly embeds the Rust sources (world.rs, word.rs,
game.rs, physics.rs).  Machine floats (f32) are embedded as exact
rationals; 2-D vectors as pairs of rationals.  HashMaps are embedded as
association lists with insert-or-replace update, matching HashMap
semantics on the unique-key maps the program builds.  Code of the
repository that is not among the given sources (field.rs, person.rs,
function.rs, math.rs) is modelled from the specification; each such
definition carries a doc comment saying so.
-/

namespace Eidos

/-- Two-dimensional vector / position, embedding egui's Vec2 and Pos2. -/
abbrev Vec2 := ℚ × ℚ

/-- Scalar-by-vector product, embedding Vec2 * f32. -/
def vmul (v : Vec2) (s : ℚ) : Vec2 := (v.1 * s, v.2 * s)

section AList

variable {κ : Type} {β : Type} [DecidableEq κ]

/-- Association-list lookup; embeds HashMap::get. -/
def alGet : List (κ × β) → κ → Option β
  | [], _ => none
  | e :: es, k => if e.1 = k then some e.2 else alGet es k

/-- Lookup with a default; embeds entry(k).or_default() reads. -/
def alGetD (l : List (κ × β)) (k : κ) (d : β) : β := (alGet l k).getD d

/-- Insert-or-replace; embeds HashMap::insert / mutation through entry(k). -/
def alSet (l : List (κ × β)) (k : κ) (v : β) : List (κ × β) :=
  if l.any (fun e => decide (e.1 = k)) then
    l.map (fun e => if e.1 = k then (k, v) else e)
  else l ++ [(k, v)]

end AList

/-- Scalar input field kinds.  The enum lives in field.rs, which is not
among the given sources; the constructors are those matched in world.rs
(Density, Elevation, Magic) plus Light, which word.rs maps the word Lusa
to. -/
inductive ScalarInputFieldKind
  | Density | Elevation | Magic | Light
  deriving DecidableEq

/-- Vector input field kinds: uninhabited, per the empty match in
World::sample_input_vector_field (world.rs line 341). -/
inductive VectorInputFieldKind
  deriving DecidableEq

/-- Scalar output field kinds: uninhabited, per the empty match in
World::sample_output_scalar_field (world.rs line 344). -/
inductive ScalarOutputFieldKind
  deriving DecidableEq

/-- Vector output field kinds (field.rs is not among the sources; the
constructors are the ones referenced from word.rs, physics.rs and the
exhaustive match in game.rs lines 833-837). -/
inductive VectorOutputFieldKind
  | Gravity | Force | Write
  deriving DecidableEq

inductive GenericScalarFieldKind
  | Input (k : ScalarInputFieldKind)
  | Output (k : ScalarOutputFieldKind)
  deriving DecidableEq

inductive GenericVectorFieldKind
  | Input (k : VectorInputFieldKind)
  | Output (k : VectorOutputFieldKind)
  deriving DecidableEq

inductive GenericInputFieldKind
  | Scalar (k : ScalarInputFieldKind)
  | Vector (k : VectorInputFieldKind)
  deriving DecidableEq

inductive GenericOutputFieldKind
  | Scalar (k : ScalarOutputFieldKind)
  | Vector (k : VectorOutputFieldKind)
  deriving DecidableEq

/-- UI control kinds (world.rs Controls). -/
inductive ControlKind
  | XSlider | YSlider
  deriving DecidableEq

/-- The word vocabulary, from word.rs lines 10-46. -/
inductive Word
  | Ti | Tu | Ta | Te
  | Seva | Sevi | Me
  | Kova | Kovi
  | Le | Po | Lusa | Mesi
  | Ke
  | Ma | Sa | Na | Reso | Solo
  | Sila | Vila | Pa | Pi
  | No | Mo | Re | Rovo
  deriving DecidableEq

/-- The whole vocabulary as a list (word.rs derives Sequence). -/
def Word.all : List Word :=
  [.Ti, .Tu, .Ta, .Te, .Seva, .Sevi, .Me, .Kova, .Kovi, .Le, .Po, .Lusa,
   .Mesi, .Ke, .Ma, .Sa, .Na, .Reso, .Solo, .Sila, .Vila, .Pa, .Pi,
   .No, .Mo, .Re, .Rovo]

/-- Nullary function tags (function.rs is not among the sources; the
constructors are the ones word.rs converts into Function). -/
inductive Nullary
  | One | Two | Five | Ten | OneX | OneY | X | Y | Filter | TargetX | TargetY
  deriving DecidableEq

inductive HomoBinOp
  | Add
  deriving DecidableEq

inductive HeteroBinOp
  | Mul
  deriving DecidableEq

inductive MathUnOp
  | Neg
  deriving DecidableEq

inductive ScalarUnOp
  | Reciprocal
  deriving DecidableEq

inductive ToScalarOp
  | Magnitude
  deriving DecidableEq

inductive Combinator1
  | Drop | Duplicate
  deriving DecidableEq

inductive Combinator2
  | Swap | Over
  deriving DecidableEq

/-- Modelled from the spec: function.rs is not among the sources.  A
Function is a tagged operation (spec section 4.1): nullary constant,
field read, field write, unary or binary operator, stack combinator, or
control read; the constructor groups are exactly the ones word.rs
converts into Function. -/
inductive Function
  | Nullary (n : Nullary)
  | ReadField (k : GenericInputFieldKind)
  | WriteField (k : GenericOutputFieldKind)
  | MathUn (op : MathUnOp)
  | ScalarUn (op : ScalarUnOp)
  | ToScalar (op : ToScalarOp)
  | HomoBin (op : HomoBinOp)
  | HeteroBin (op : HeteroBinOp)
  | Comb1 (c : Combinator1)
  | Comb2 (c : Combinator2)
  | ReadControl (k : ControlKind)
  deriving DecidableEq

/-- Word-to-function dispatch, from word.rs lines 49-80. -/
def Word.function : Word → Function
  | .Ti => .Nullary .One
  | .Tu => .Nullary .Two
  | .Ta => .Nullary .Five
  | .Te => .Nullary .Ten
  | .Kova => .Nullary .OneX
  | .Kovi => .Nullary .OneY
  | .Seva => .Nullary .X
  | .Sevi => .Nullary .Y
  | .Me => .Nullary .Filter
  | .Le => .ReadField (.Scalar .Elevation)
  | .Po => .ReadField (.Scalar .Density)
  | .Lusa => .ReadField (.Scalar .Light)
  | .Mesi => .ReadField (.Scalar .Magic)
  | .Ke => .WriteField (.Vector .Gravity)
  | .Ma => .HomoBin .Add
  | .Sa => .HeteroBin .Mul
  | .Na => .MathUn .Neg
  | .Solo => .ToScalar .Magnitude
  | .Reso => .ScalarUn .Reciprocal
  | .No => .Comb1 .Drop
  | .Mo => .Comb1 .Duplicate
  | .Re => .Comb2 .Swap
  | .Rovo => .Comb2 .Over
  | .Sila => .ReadControl .XSlider
  | .Vila => .ReadControl .YSlider
  | .Pa => .Nullary .TargetX
  | .Pi => .Nullary .TargetY

/-- Word mana cost, from word.rs lines 81-94. -/
def Word.cost : Word → ℚ
  | .Ti => 1
  | .Tu => 2
  | .Ta => 5
  | .Te => 10
  | .Sila => 2
  | .Vila => 2
  | .Pa => 3
  | .Pi => 3
  | _ => 1

/-- Modelled from the spec: the scalar field expression algebra of
field.rs is not among the sources.  Constructors follow spec section 3
(leaf Uniform; unary Negate; binary Add/Mul).  The InputRef/OutputRef
leaves re-enter world sampling and the Magnitude node needs a square
root, so they are outside the modelled fragment; no claim below needs
them. -/
inductive ScalarField
  | Uniform (n : ℚ)
  | Neg (f : ScalarField)
  | Add (a b : ScalarField)
  | Mul (a b : ScalarField)
  deriving DecidableEq

/-- Modelled from the spec: the vector field expression algebra of
field.rs is not among the sources.  Constructors follow spec section 3:
leaf Uniform, homogeneous Add, heterogeneous scalar-times-vector Mul,
and Filter (vector gated by a scalar mask, spec section 4.2). -/
inductive VectorField
  | Uniform (v : Vec2)
  | Add (a b : VectorField)
  | Mul (s : ScalarField) (v : VectorField)
  | Filter (v : VectorField) (mask : ScalarField)
  deriving DecidableEq

/-- Modelled from the spec: structural sampling of a scalar field
expression at a position (spec sections 3 and 4.2). -/
def ScalarField.sampleAt : ScalarField → Vec2 → ℚ
  | .Uniform n, _ => n
  | .Neg f, p => -(f.sampleAt p)
  | .Add a b, p => a.sampleAt p + b.sampleAt p
  | .Mul a b, p => a.sampleAt p * b.sampleAt p

/-- Modelled from the spec: structural sampling of a vector field
expression at a position.  Filter evaluates the mask at the same
position; a mask value of at most zero yields the zero vector, any
positive value passes the vector sample through unchanged (spec
section 4.2). -/
def VectorField.sampleAt : VectorField → Vec2 → Vec2
  | .Uniform v, _ => v
  | .Add a b, p => a.sampleAt p + b.sampleAt p
  | .Mul s v, p => vmul (v.sampleAt p) (s.sampleAt p)
  | .Filter v mask, p => if mask.sampleAt p ≤ 0 then (0, 0) else v.sampleAt p

/-- Modelled from the spec: a person (person.rs is not among the
sources).  Only the pieces the core consults are kept: mana with its
cap, and the per-person output field scale (spec section 4.2). -/
structure Person where
  mana : ℚ
  max_mana : ℚ
  field_scale : ℚ
  deriving DecidableEq

/-- Modelled from the spec: the can-cast predicate is false exactly when
mana is exhausted (spec section 4.4). -/
def Person.can_cast (p : Person) : Bool := decide (0 < p.mana)

/-- Modelled from the spec: physics work drains mana (world.rs update
calls do_work with the work done by the physics step). -/
def Person.do_work (p : Person) (work : ℚ) : Person :=
  { p with mana := p.mana - work }

/-- Modelled from the spec: mana regenerates toward the cap while the
caster has no active spells. -/
def Person.regen_mana (p : Person) : Person :=
  { p with mana := min p.max_mana (p.mana + 1) }

/-- Caster identity (person.rs): the player or an NPC by id. -/
inductive PersonId
  | Player
  | Npc (n : ℕ)
  deriving DecidableEq

/-- An active spell: the committed field expression and the words that
produced it (world.rs lines 41-44). -/
structure ActiveSpell (T : Type) where
  field : T
  words : List Word
  deriving DecidableEq

/-- Per-caster, per-kind registry of active spells (world.rs line 33). -/
abbrev TypedActiveSpells (K V : Type) := List (PersonId × List (K × List (ActiveSpell V)))

/-- The active spell registry (world.rs lines 35-39). -/
structure ActiveSpells where
  scalars : TypedActiveSpells ScalarOutputFieldKind ScalarField
  vectors : TypedActiveSpells VectorOutputFieldKind VectorField
  deriving DecidableEq

/-- ActiveSpells::contains (world.rs lines 47-58): true when any
caster's map holds an entry for the kind (entry presence, regardless of
whether the entry's spell list is empty). -/
def ActiveSpells.contains (s : ActiveSpells) : GenericOutputFieldKind → Bool
  | .Scalar k => s.scalars.any fun e => (alGet e.2 k).isSome
  | .Vector k => s.vectors.any fun e => (alGet e.2 k).isSome

/-- Number of active spells a caster has registered under a kind
(length of the vector that ActiveSpells::remove indexes into). -/
def ActiveSpells.spell_count (s : ActiveSpells) (pid : PersonId) :
    GenericOutputFieldKind → ℕ
  | .Scalar k => (alGetD (alGetD s.scalars pid []) k []).length
  | .Vector k => (alGetD (alGetD s.vectors pid []) k []).length

/-- ActiveSpells::remove (world.rs lines 59-78): materializes the
per-person and per-kind entries via entry().or_default(), then removes
index i from the spell vector.  Vec::remove panics when i is out of
bounds; the panic is embedded as none. -/
def ActiveSpells.remove (s : ActiveSpells) (pid : PersonId)
    (kind : GenericOutputFieldKind) (i : ℕ) : Option ActiveSpells :=
  match kind with
  | .Scalar k =>
    let personMap := alGetD s.scalars pid []
    let spells := alGetD personMap k []
    if i < spells.length then
      some { s with scalars := alSet s.scalars pid (alSet personMap k (spells.eraseIdx i)) }
    else none
  | .Vector k =>
    let personMap := alGetD s.vectors pid []
    let spells := alGetD personMap k []
    if i < spells.length then
      some { s with vectors := alSet s.vectors pid (alSet personMap k (spells.eraseIdx i)) }
    else none

/-- UI control state (world.rs lines 106-110). -/
structure Controls where
  x_slider : Option ℚ
  y_slider : Option ℚ
  deriving DecidableEq

/-- Controls::get (world.rs lines 112-119). -/
def Controls.get (c : Controls) : ControlKind → ℚ
  | .XSlider => c.x_slider.getD 0
  | .YSlider => c.y_slider.getD 0

/-- Object properties (world.rs lines 175-178). -/
structure Properties where
  magic : ℚ
  deriving DecidableEq

/-- Graphical shapes (world.rs lines 197-204). -/
inductive GraphicalShape
  | Circle (radius : ℚ)
  | Box (size : Vec2)
  | HalfSpace (normal : Vec2)
  | Capsule (half_height : ℚ) (radius : ℚ)
  deriving DecidableEq

/-- Comparison of an Euclidean distance against a radius, embedded
without square roots: dist(p, q) < r holds for f32 exactly when r is
positive and the squared distance is below r squared. -/
def distLt (p q : Vec2) (r : ℚ) : Bool :=
  decide (0 < r ∧ (p.1 - q.1) ^ 2 + (p.2 - q.2) ^ 2 < r ^ 2)

/-- GraphicalShape::contains (world.rs lines 220-234).  Distance tests
are embedded through distLt; the HalfSpace division is rational
division, which returns 0 for a zero denominator where f32 gives an
infinity (the program only builds half-spaces with normal (0, 1)). -/
def GraphicalShape.contains : GraphicalShape → Vec2 → Bool
  | .Circle radius, p => distLt p (0, 0) radius
  | .Box size, p => decide (|p.1| < size.1 / 2 ∧ |p.2| < size.2 / 2)
  | .HalfSpace normal, p => decide (p.2 < -normal.1 / normal.2 * p.1)
  | .Capsule half_height radius, p =>
    decide (|p.1| < radius ∧ |p.2| < half_height)
    || distLt p (0, half_height) radius
    || distLt p (0, -half_height) radius

/-- A shape with an offset and a density (world.rs lines 180-186). -/
structure OffsetShape where
  shape : GraphicalShape
  offset : Vec2
  density : ℚ
  deriving DecidableEq

/-- OffsetShape::contains (world.rs lines 188-191). -/
def OffsetShape.contains (s : OffsetShape) (pos : Vec2) : Bool :=
  s.shape.contains (pos - s.offset)

/-- Modelled from the spec: math.rs (rotate) is not among the sources.
An angle is represented by the pair (cos, sin); rotating a vector
multiplies by the rotation matrix. -/
def rotate (v : Vec2) (rot : Vec2) : Vec2 :=
  (rot.1 * v.1 - rot.2 * v.2, rot.2 * v.1 + rot.1 * v.2)

/-- Negated angle in the (cos, sin) representation. -/
def rotNeg (rot : Vec2) : Vec2 := (rot.1, -rot.2)

/-- A world object (world.rs lines 167-173).  The rotation is stored in
the (cos, sin) representation.  Whether the object's rigid body is
fixed is recorded on the object itself, standing in for the lookup
self.physics.bodies[obj.body_handle].body_type().is_fixed(). -/
structure Object where
  pos : Vec2
  rot : Vec2
  shapes : List OffsetShape
  body_fixed : Bool
  props : Properties
  deriving DecidableEq

/-- The world (world.rs lines 24-31).  The player is kept as a bare
Person, and the physics context is out of scope (spec section 1); the
work done by the physics step enters update as a parameter. -/
structure World where
  player : Person
  npcs : List (ℕ × Person)
  objects : List Object
  active_spells : ActiveSpells
  controls : Controls
  deriving DecidableEq

/-- World::person (world.rs lines 238-250), with the missing-NPC panic
embedded as none. -/
def World.personGet (w : World) : PersonId → Option Person
  | .Player => some w.player
  | .Npc n => alGet w.npcs n

/-- World::person_mut-style write-back of one person's state. -/
def World.personSet (w : World) : PersonId → Person → World
  | .Player, p => { w with player := p }
  | .Npc n, p => { w with npcs := alSet w.npcs n p }

/-- World::person_ids (world.rs lines 361-366): the player then the
NPC ids. -/
def World.person_ids (w : World) : List PersonId :=
  .Player :: w.npcs.map (fun e => .Npc e.1)

/-- Field scale of a caster, self.person(id).field_scale(); the
missing-person panic is embedded as scale 0 (unreachable while registry
keys are live casters). -/
def World.field_scale_of (w : World) (id : PersonId) : ℚ :=
  ((w.personGet id).map Person.field_scale).getD 0

/-- ScalarField::sample_relative.  Modelled from the spec: the observer
only affects the reference leaves, which are outside the modelled
fragment, so sampling is structural at the given position. -/
def ScalarField.sample_relative (f : ScalarField) (_w : World)
    (_pid : PersonId) (pos : Vec2) : ℚ :=
  f.sampleAt pos

/-- VectorField::sample_relative; see ScalarField.sample_relative. -/
def VectorField.sample_relative (f : VectorField) (_w : World)
    (_pid : PersonId) (pos : Vec2) : Vec2 :=
  f.sampleAt pos

/-- World::find_object_filtered_at (world.rs lines 264-282): the first
object passing the filter one of whose shapes contains the point, after
translating and un-rotating into the object frame. -/
def World.find_object_filtered_at (w : World) (p : Vec2)
    (filter : Object → Bool) : Option (Object × OffsetShape) :=
  w.objects.findSome? fun obj =>
    if filter obj then
      let transformed := rotate (p - obj.pos) (rotNeg obj.rot)
      (obj.shapes.find? fun shape => shape.contains transformed).map
        fun shape => (obj, shape)
    else none

/-- World::find_object_at (world.rs lines 283-285). -/
def World.find_object_at (w : World) (p : Vec2) : Option (Object × OffsetShape) :=
  w.find_object_filtered_at p (fun _ => true)

/-- Rational stand-in for the f32 square root (exact on perfect
squares); used only by the Magic input field's magnitude sum. -/
def ratSqrt (q : ℚ) : ℚ :=
  (Nat.sqrt q.num.toNat : ℚ) / (Nat.sqrt q.den : ℚ)

/-- Euclidean length of a vector through ratSqrt (Vec2::length). -/
def vecLength (v : Vec2) : ℚ := ratSqrt (v.1 ^ 2 + v.2 ^ 2)

/-- The downward elevation probe (the while loop of
World::sample_input_scalar_field, world.rs lines 307-320) under exact
half-step arithmetic: starting from the sample position's y, walk down
in steps of one half until a fixed-body object is hit (elevation is the
drop) or y leaves the positive half-plane (elevation is the sample y
itself).  This exact loop always terminates; the loop variable in the
source is an f32, whose faithful rounding embedding is
World.elevation_probe_f32_fuel below — the two agree exactly while the
subtraction is representable (half-integers below 2 to the 23rd) and
differ at large y, where the f32 subtraction rounds back to its input
and the source loop never ends. -/
def World.elevation_probe (w : World) (pos : Vec2) (testY : ℚ) : ℚ :=
  if h : 0 < testY then
    if (w.find_object_filtered_at (pos.1, testY) (fun o => o.body_fixed)).isSome then
      pos.2 - testY
    else
      w.elevation_probe pos (testY - 1 / 2)
  else pos.2
termination_by (⌈2 * testY⌉).toNat
decreasing_by
  have h1 : (0 : ℤ) < ⌈2 * testY⌉ := Int.ceil_pos.mpr (by linarith)
  have h2 : ⌈2 * (testY - 1 / 2)⌉ = ⌈2 * testY⌉ - 1 := by
    have hx : 2 * (testY - 1 / 2) = 2 * testY - (1 : ℤ) := by push_cast; ring
    rw [hx, Int.ceil_sub_int]
  rw [h2]
  omega

/-- Fuel-indexed version of the elevation probe, used to state that the
probe terminates: with fuel n it performs at most n iterations and
returns none if the loop has not finished. -/
def World.elevation_probe_fuel (w : World) (pos : Vec2) : ℚ → ℕ → Option ℚ
  | _, 0 => none
  | testY, n + 1 =>
    if 0 < testY then
      if (w.find_object_filtered_at (pos.1, testY) (fun o => o.body_fixed)).isSome then
        some (pos.2 - testY)
      else
        w.elevation_probe_fuel pos (testY - 1 / 2) n
    else some pos.2

/-- Round a positive rational to the nearest IEEE-754 binary32 value
(24-bit significand, round to nearest, ties to even significand):
the value is scaled by its unit in the last place, the significand is
rounded half-to-even, and the result is scaled back.  Overflow and
subnormal thresholds lie far outside the magnitudes the elevation loop
visits and are not modelled. -/
def roundF32Pos (q : ℚ) : ℚ :=
  let e := Int.log 2 q
  let ulp : ℚ := 2 ^ (e - 23)
  let s := q / ulp
  let n := ⌊s⌋
  let m := if s - n < 1 / 2 then n
    else if 1 / 2 < s - n then n + 1
    else if n % 2 = 0 then n else n + 1
  (m : ℚ) * ulp

/-- Round a rational to the nearest binary32 value; this is what the
f32 subtraction test.y -= 0.5 of the elevation loop performs on its
exact difference. -/
def roundF32 (q : ℚ) : ℚ :=
  if q = 0 then 0
  else if 0 < q then roundF32Pos q
  else -roundF32Pos (-q)

/-- The elevation probe loop under faithful binary32 arithmetic: as in
the source, the loop-carried test y is an f32, so each subtraction of
one half passes through binary32 rounding (roundF32), which is the
identity only while the difference is representable.  The source loop
need not terminate (the subtraction rounds back to its input at large
y), so this faithful embedding is fuel-indexed: none means the loop is
still running after the given number of iterations. -/
def World.elevation_probe_f32_fuel (w : World) (pos : Vec2) : ℚ → ℕ → Option ℚ
  | _, 0 => none
  | testY, n + 1 =>
    if 0 < testY then
      if (w.find_object_filtered_at (pos.1, testY) (fun o => o.body_fixed)).isSome then
        some (pos.2 - testY)
      else w.elevation_probe_f32_fuel pos (roundF32 (testY - 1 / 2)) n
    else some pos.2

/-- World::sample_input_scalar_field (world.rs lines 300-339).  The
Light kind is not handled by this revision of world.rs (its sampler is
in code not among the sources); it is embedded as the constant 0, which
no claim depends on. -/
def World.sample_input_scalar_field (w : World) (kind : ScalarInputFieldKind)
    (pos : Vec2) : ℚ :=
  match kind with
  | .Density => ((w.find_object_at pos).map fun x => x.2.density).getD 0
  | .Elevation => w.elevation_probe pos pos.2
  | .Magic =>
    match w.find_object_at pos with
    | some x => x.1.props.magic
    | none =>
      let scalarSum := w.active_spells.scalars.foldl (fun acc e =>
        e.2.foldl (fun acc2 ke =>
          ke.2.foldl (fun a sp => a + |sp.field.sample_relative w e.1 pos|) acc2) acc) 0
      let vectorSum := w.active_spells.vectors.foldl (fun acc e =>
        e.2.foldl (fun acc2 ke =>
          ke.2.foldl (fun a sp => a + vecLength (sp.field.sample_relative w e.1 pos)) acc2) acc) 0
      scalarSum + vectorSum
  | .Light => 0

/-- World::sample_input_vector_field (world.rs lines 340-342): the kind
enum is uninhabited. -/
def World.sample_input_vector_field (_w : World) (kind : VectorInputFieldKind)
    (_pos : Vec2) : Vec2 :=
  nomatch kind

/-- World::sample_output_scalar_field (world.rs lines 343-345): the kind
enum is uninhabited. -/
def World.sample_output_scalar_field (_w : World) (kind : ScalarOutputFieldKind)
    (_pos : Vec2) : ℚ :=
  nomatch kind

/-- The (caster, spell) pairs contributing to an output vector field:
the filter_map / flat_map chain of World::sample_output_vector_field
(world.rs lines 348-352). -/
def World.output_spell_entries (w : World) (kind : VectorOutputFieldKind) :
    List (PersonId × ActiveSpell VectorField) :=
  (w.active_spells.vectors.filterMap fun e =>
    (alGet e.2 kind).map fun spells => (e.1, spells)).flatMap
    fun e => e.2.map fun spell => (e.1, spell)

/-- World::sample_output_vector_field (world.rs lines 346-357): fold the
contributing spells, adding each spell's relative sample scaled by its
caster's field scale. -/
def World.sample_output_vector_field (w : World) (kind : VectorOutputFieldKind)
    (pos : Vec2) : Vec2 :=
  (w.output_spell_entries kind).foldl
    (fun acc x => acc + vmul (x.2.field.sample_relative w x.1 pos) (w.field_scale_of x.1))
    ((0, 0) : Vec2)

/-- World::sample_scalar_field (world.rs lines 286-292). -/
def World.sample_scalar_field (w : World) (kind : GenericScalarFieldKind)
    (pos : Vec2) : ℚ :=
  match kind with
  | .Input k => w.sample_input_scalar_field k pos
  | .Output k => w.sample_output_scalar_field k pos

/-- World::sample_vector_field (world.rs lines 293-299). -/
def World.sample_vector_field (w : World) (kind : GenericVectorFieldKind)
    (pos : Vec2) : Vec2 :=
  match kind with
  | .Input k => w.sample_input_vector_field k pos
  | .Output k => w.sample_output_vector_field k pos

/-- State-threaded form of scalar sampling.  The Rust method takes
self by shared reference, so it can produce a value but cannot write
the world, registry, or any stack; the pair makes the unchanged state
explicit. -/
def World.sample_scalar_field_st (w : World) (kind : GenericScalarFieldKind)
    (pos : Vec2) : ℚ × World :=
  (w.sample_scalar_field kind pos, w)

/-- State-threaded form of vector sampling; see
World.sample_scalar_field_st. -/
def World.sample_vector_field_st (w : World) (kind : GenericVectorFieldKind)
    (pos : Vec2) : Vec2 × World :=
  (w.sample_vector_field kind pos, w)

/-- The per-person body of World::update (world.rs lines 371-385):
drain mana by the physics work, clear this caster's registry maps when
it can no longer cast (the maps are materialized through
entry().or_default() either way), and regenerate mana when the caster
has no remaining active spells. -/
def World.update_person (w : World) (work : ℚ) (id : PersonId) : World :=
  match w.personGet id with
  | none => w
  | some p0 =>
    let p1 := p0.do_work work
    let w1 := w.personSet id p1
    let scalars1 := if p1.can_cast then alGetD w1.active_spells.scalars id [] else []
    let vectors1 := if p1.can_cast then alGetD w1.active_spells.vectors id [] else []
    let w2 := { w1 with active_spells :=
      { scalars := alSet w1.active_spells.scalars id scalars1,
        vectors := alSet w1.active_spells.vectors id vectors1 } }
    if scalars1.all (fun e => e.2.isEmpty) && vectors1.all (fun e => e.2.isEmpty) then
      w2.personSet id p1.regen_mana
    else w2

/-- World::update (world.rs lines 367-386).  The physics step is out of
scope (spec section 1); the work it reports enters as the parameter. -/
def World.update (w : World) (work : ℚ) : World :=
  w.person_ids.foldl (fun acc id => acc.update_person work id) w

/-- A stack value: a scalar or a vector field expression (spec
section 3; the stack item type lives in code not among the sources). -/
inductive Value
  | Scalar (f : ScalarField)
  | Vector (f : VectorField)
  deriving DecidableEq

/-- The kind of a stack value. -/
inductive ValueKind
  | Scalar | Vector
  deriving DecidableEq

def Value.kind : Value → ValueKind
  | .Scalar _ => .Scalar
  | .Vector _ => .Vector

/-- Validation errors (spec section 7). -/
inductive EidosError
  | StackUnderflow
  | TypeMismatch
  deriving DecidableEq

/-- Modelled from the spec: validate_function_use (the stack machine of
game.rs line 503 and spec section 4.3) is implemented in code not among
the sources.  The stack is a list with its top at the head.  Arity and
operand kinds follow the table of spec section 4.3: fewer operands than
required is StackUnderflow, a wrong operand kind is TypeMismatch, and
the stack itself is never changed. -/
def validate_function_use (stack : List Value) : Function → Except EidosError Unit
  | .Nullary _ => .ok ()
  | .ReadField _ => .ok ()
  | .ReadControl _ => .ok ()
  | .MathUn _ =>
    match stack with
    | [] => .error .StackUnderflow
    | _ :: _ => .ok ()
  | .ScalarUn _ =>
    match stack with
    | [] => .error .StackUnderflow
    | v :: _ => if v.kind = .Scalar then .ok () else .error .TypeMismatch
  | .ToScalar _ =>
    match stack with
    | [] => .error .StackUnderflow
    | v :: _ => if v.kind = .Vector then .ok () else .error .TypeMismatch
  | .HomoBin _ =>
    match stack with
    | a :: b :: _ => if a.kind = b.kind then .ok () else .error .TypeMismatch
    | _ => .error .StackUnderflow
  | .HeteroBin _ =>
    match stack with
    | a :: b :: _ =>
      if (a.kind = .Scalar ∧ b.kind = .Vector) ∨ (a.kind = .Vector ∧ b.kind = .Scalar) then
        .ok ()
      else .error .TypeMismatch
    | _ => .error .StackUnderflow
  | .WriteField k =>
    match stack with
    | [] => .error .StackUnderflow
    | v :: _ =>
      match k with
      | .Scalar _ => if v.kind = .Scalar then .ok () else .error .TypeMismatch
      | .Vector _ => if v.kind = .Vector then .ok () else .error .TypeMismatch
  | .Comb1 _ =>
    match stack with
    | [] => .error .StackUnderflow
    | _ :: _ => .ok ()
  | .Comb2 _ =>
    match stack with
    | _ :: _ :: _ => .ok ()
    | _ => .error .StackUnderflow

/-- State-threaded form of validation: validate inspects the stack
without mutating it (spec section 4.3). -/
def validate_function_use_st (stack : List Value) (f : Function) :
    Except EidosError Unit × List Value :=
  (validate_function_use stack f, stack)

/-- A rigid body as the physics-module force loop sees it: its user
force accumulator (reset_forces clears it, add_force adds to it). -/
structure PBody where
  force : Vec2
  deriving DecidableEq

/-- A world object as the physics module sees it (physics.rs revision):
its recorded position. -/
structure PObject where
  pos : Vec2
  deriving DecidableEq

/-- The output field map of the physics.rs revision (world.outputs):
at most one committed field per output kind. -/
structure OutputFields where
  vectors : List (VectorOutputFieldKind × VectorField)
  deriving DecidableEq

/-- The slice of Game that Game::run_physics reads and writes
(physics.rs lines 86-111): objects and bodies keyed by rigid-body
handle, and the committed output fields. -/
structure PGame where
  objects : List (ℕ × PObject)
  bodies : List (ℕ × PBody)
  outputs : OutputFields
  deriving DecidableEq

/-- Write one body's force accumulator; a handle absent from the body
set would panic in the source and is a no-op here (unreachable: objects
and bodies are created in pairs by Game::add_object). -/
def setBodyForce (bodies : List (ℕ × PBody)) (handle : ℕ) (v : Vec2) :
    List (ℕ × PBody) :=
  bodies.map fun e => if e.1 = handle then (e.1, ⟨v⟩) else e

/-- The force phase of Game::run_physics (physics.rs lines 86-102): if a
Force output field is committed, then for every object handle the body's
forces are reset and the field's sample at the object's recorded
position is added; otherwise nothing is touched.  The physics step and
pose write-back that follow are out of scope (spec section 1). -/
def run_physics_forces (g : PGame) : PGame :=
  match alGet g.outputs.vectors .Force with
  | some field =>
    let bodies := g.objects.foldl
      (fun bs ho => setBodyForce bs ho.1 (field.sampleAt ho.2.pos)) g.bodies
    { g with bodies := bodies }
  | none => g

/-- Modelled from the spec: what the Force output field samples to in
the physics-module data model.  Output field sampling aggregates the
committed contributions (spec section 4.2), so with no committed Force
field the sample is the zero vector. -/
def OutputFields.sample_force (o : OutputFields) (pos : Vec2) : Vec2 :=
  match alGet o.vectors .Force with
  | some f => f.sampleAt pos
  | none => (0, 0)

section AListLemmas

variable {κ : Type} {β : Type} [DecidableEq κ]

lemma alGet_map_replace_self {l : List (κ × β)} {k : κ} {v : β}
    (h : l.any (fun e => decide (e.1 = k)) = true) :
    alGet (l.map (fun e => if e.1 = k then (k, v) else e)) k = some v := by
  induction l with
  | nil => simp at h
  | cons e es ih =>
    by_cases he : e.1 = k
    · simp [alGet, he]
    · have h2 : es.any (fun e => decide (e.1 = k)) = true := by
        simp only [List.any_cons, Bool.or_eq_true, decide_eq_true_eq] at h
        exact h.resolve_left he
      simp [alGet, he, ih h2]

lemma alGet_map_replace_ne {l : List (κ × β)} {k j : κ} {v : β} (hne : j ≠ k) :
    alGet (l.map (fun e => if e.1 = k then (k, v) else e)) j = alGet l j := by
  have hkj : ¬(k = j) := fun h2 => hne h2.symm
  induction l with
  | nil => rfl
  | cons e es ih =>
    by_cases he : e.1 = k
    · simp [alGet, he, hkj, ih]
    · by_cases hej : e.1 = j <;> simp [alGet, he, hej, hne, ih]

lemma alGet_append_single_self {l : List (κ × β)} {k : κ} {v : β}
    (h : l.any (fun e => decide (e.1 = k)) = false) :
    alGet (l ++ [(k, v)]) k = some v := by
  induction l with
  | nil => simp [alGet]
  | cons e es ih =>
    simp only [List.any_cons, Bool.or_eq_false_iff, decide_eq_false_iff_not] at h
    simp [alGet, h.1, ih h.2]

lemma alGet_append_single_ne {l : List (κ × β)} {k j : κ} {v : β} (hne : j ≠ k) :
    alGet (l ++ [(k, v)]) j = alGet l j := by
  have hkj : ¬(k = j) := fun h2 => hne h2.symm
  induction l with
  | nil => simp [alGet, hkj]
  | cons e es ih =>
    by_cases hej : e.1 = j <;> simp [alGet, hej, ih]

/-- Lookup after insert-or-replace at the same key. -/
lemma alGet_alSet_self (l : List (κ × β)) (k : κ) (v : β) :
    alGet (alSet l k v) k = some v := by
  rw [alSet]
  by_cases h : l.any (fun e => decide (e.1 = k)) = true
  · rw [if_pos h]; exact alGet_map_replace_self h
  · rw [if_neg h]
    exact alGet_append_single_self (Bool.not_eq_true _ ▸ h)

/-- Lookup after insert-or-replace at a different key. -/
lemma alGet_alSet_ne (l : List (κ × β)) (k j : κ) (v : β) (hne : j ≠ k) :
    alGet (alSet l k v) j = alGet l j := by
  rw [alSet]
  split
  · exact alGet_map_replace_ne hne
  · exact alGet_append_single_ne hne

/-- The inserted pair is present after insert-or-replace. -/
lemma mem_alSet_self (l : List (κ × β)) (k : κ) (v : β) :
    (k, v) ∈ alSet l k v := by
  rw [alSet]
  by_cases h : l.any (fun e => decide (e.1 = k)) = true
  · rw [if_pos h]
    simp only [List.any_eq_true, decide_eq_true_eq] at h
    obtain ⟨e, he, hk⟩ := h
    exact List.mem_map.mpr ⟨e, he, by simp [hk]⟩
  · rw [if_neg h]
    simp

/-- If every key of the list is k, every entry after setting k holds the
new value. -/
lemma alSet_snd_of_keys_eq {l : List (κ × β)} {k : κ} {v : β}
    (hkeys : ∀ e ∈ l, e.1 = k) : ∀ e ∈ alSet l k v, e.2 = v := by
  rw [alSet]
  cases l with
  | nil => simp
  | cons e0 es =>
    rw [if_pos]
    · intro e he
      obtain ⟨x, hx, hxe⟩ := List.mem_map.mp he
      rw [hkeys x hx] at hxe
      simp at hxe
      rw [← hxe]
    · simp only [List.any_cons, Bool.or_eq_true, decide_eq_true_eq]
      exact Or.inl (hkeys e0 (by simp))

end AListLemmas

lemma World.personSet_active_spells (w : World) (id : PersonId) (p : Person) :
    (w.personSet id p).active_spells = w.active_spells := by
  cases id <;> rfl

lemma World.personSet_npcs_player (w : World) (p : Person) :
    (w.personSet .Player p).npcs = w.npcs := rfl

lemma World.withSpells_personGet (w : World) (s : ActiveSpells) (j : PersonId) :
    ({ w with active_spells := s } : World).personGet j = w.personGet j := by
  cases j <;> rfl

/-- What one update step does to the registry: the caster's two maps are
materialized and either kept (can cast) or cleared (cannot cast). -/
lemma World.update_person_active_spells (w : World) (work : ℚ) (id : PersonId)
    (p0 : Person) (h : w.personGet id = some p0) :
    (w.update_person work id).active_spells =
      ⟨alSet w.active_spells.scalars id
        (if (p0.do_work work).can_cast then alGetD w.active_spells.scalars id [] else []),
       alSet w.active_spells.vectors id
        (if (p0.do_work work).can_cast then alGetD w.active_spells.vectors id [] else [])⟩ := by
  simp only [World.update_person, h, World.personSet_active_spells]
  split <;> split <;> first
    | rw [World.personSet_active_spells]
    | rfl

/-- One update step leaves every other person untouched. -/
lemma World.update_person_personGet_ne (w : World) (work : ℚ) (id j : PersonId)
    (hne : j ≠ id) :
    (w.update_person work id).personGet j = w.personGet j := by
  cases h : w.personGet id with
  | none => rw [World.update_person, h]
  | some p0 =>
    have hps : ∀ (v : World) (p : Person), (v.personSet id p).personGet j = v.personGet j := by
      intro v p
      cases id with
      | Player =>
        cases j with
        | Player => exact absurd rfl hne
        | Npc m => rfl
      | Npc n =>
        cases j with
        | Player => rfl
        | Npc m =>
          have hm : m ≠ n := fun hmn => hne (by rw [hmn])
          exact alGet_alSet_ne v.npcs n m p hm
    simp only [World.update_person, h]
    split <;> split <;> first
      | rw [hps, World.withSpells_personGet, hps]
      | rw [World.withSpells_personGet, hps]

/-- An empty registry. -/
def ActiveSpells.empty : ActiveSpells := ⟨[], []⟩

/-- A caster with full mana and unit field scale. -/
def personEx : Person := { mana := 1, max_mana := 1, field_scale := 1 }

/-- An empty world with a single healthy caster. -/
def wEx : World :=
  { player := personEx, npcs := [], objects := [], active_spells := .empty,
    controls := ⟨none, none⟩ }

/-- A Force spell whose field is the uniform vector (0, 1). -/
def spellForce : ActiveSpell VectorField := { field := .Uniform (0, 1), words := [.Ke] }

/-- The world of the C1 scenario: one active Force spell for the player,
whose field scale is 1. -/
def w1 : World :=
  { wEx with active_spells := ⟨[], [(.Player, [(.Force, [spellForce])])]⟩ }

/-- The registry after dispelling the single Force entry of w1. -/
def spells1After : ActiveSpells := ⟨[], [(.Player, [(.Force, [])])]⟩

/-- The world of the C2 counterexample: the player is mana-exhausted
while an NPC is healthy, and both have an active Force spell. -/
def w2c : World :=
  { player := { mana := 0, max_mana := 10, field_scale := 1 },
    npcs := [(0, { mana := 10, max_mana := 10, field_scale := 1 })],
    objects := [],
    active_spells := ⟨[], [(.Player, [(.Force, [spellForce])]),
                           (.Npc 0, [(.Force, [spellForce])])]⟩,
    controls := ⟨none, none⟩ }

/-- A registry holding exactly one Force spell for the player. -/
def spells8 : ActiveSpells := ⟨[], [(.Player, [(.Force, [spellForce])])]⟩

/-- The physics game of the C5 counterexample: one object whose body
carries a leftover force, and no committed Force output field. -/
def gEx : PGame :=
  { objects := [(0, ⟨(0, 0)⟩)], bodies := [(0, ⟨(1, 0)⟩)], outputs := ⟨[]⟩ }

/-- A physics game with a committed uniform Force field. -/
def g2 : PGame :=
  { objects := [(0, ⟨(2, 3)⟩)], bodies := [(0, ⟨(5, 5)⟩)],
    outputs := ⟨[(.Force, .Uniform (0, 1))]⟩ }

lemma foldl_add_eq_sum {α M : Type} [AddCommMonoid M] (f : α → M) :
    ∀ (l : List α) (init : M),
      l.foldl (fun acc x => acc + f x) init = init + (l.map f).sum := by
  intro l
  induction l with
  | nil => simp
  | cons a rest ih =>
    intro init
    rw [List.foldl_cons, ih, List.map_cons, List.sum_cons, add_assoc]

/-- C1: for every vector output field kind and position, the sample is
the sum over all casters and all of their active spells of that kind of
the spell's field sampled relative to its caster, scaled by the caster's
field scale; with a single active Force spell of uniform field (0, 1)
from a caster of field scale 1, the sample is (0, 1) everywhere, and
after dispelling that entry it is the zero vector everywhere. -/
theorem c1_output_vector_aggregation :
    (∀ (w : World) (kind : VectorOutputFieldKind) (pos : Vec2),
      w.sample_output_vector_field kind pos =
        ((w.output_spell_entries kind).map fun x =>
          vmul (x.2.field.sample_relative w x.1 pos) (w.field_scale_of x.1)).sum) ∧
    (∀ pos : Vec2, w1.sample_output_vector_field .Force pos = (0, 1)) ∧
    (∀ s1 : ActiveSpells, w1.active_spells.remove .Player (.Vector .Force) 0 = some s1 →
      ∀ pos : Vec2,
        ({ w1 with active_spells := s1 } : World).sample_output_vector_field .Force pos
          = (0, 0)) := by
  refine ⟨?_, ?_, ?_⟩
  · intro w kind pos
    rw [World.sample_output_vector_field, foldl_add_eq_sum]
    rw [show ((0, 0) : Vec2) = 0 from rfl, zero_add]
  · intro pos
    have h : w1.output_spell_entries .Force = [(.Player, spellForce)] := rfl
    rw [World.sample_output_vector_field, h]
    norm_num [List.foldl_cons, List.foldl_nil, vmul, VectorField.sample_relative,
      VectorField.sampleAt, World.field_scale_of, World.personGet, w1, wEx,
      personEx, spellForce, Prod.ext_iff]
  · intro s1 h
    have h0 : w1.active_spells.remove .Player (.Vector .Force) 0 = some spells1After := rfl
    rw [h0] at h
    obtain rfl : spells1After = s1 := Option.some.inj h
    intro pos
    have he : ({ w1 with active_spells := spells1After } : World).output_spell_entries .Force
        = [] := rfl
    rw [World.sample_output_vector_field, he]
    rfl

/-- Witness for C1 at concrete inputs: the single-spell world samples to
(0, 1) and, after the dispel, to the zero vector. -/
theorem c1_witness :
    w1.sample_output_vector_field .Force (2, 5) = (0, 1) ∧
    ({ w1 with active_spells := spells1After } : World).sample_output_vector_field
      .Force (2, 5) = (0, 0) :=
  ⟨c1_output_vector_aggregation.2.1 (2, 5),
   c1_output_vector_aggregation.2.2 spells1After rfl (2, 5)⟩

/-- C3: sampling is deterministic and side-effect-free: any number of
samples of the same kind at the same position in the same world agree,
and the state-threaded samplers return the world unchanged (the Rust
samplers take self by shared reference and cannot mutate the world,
registry, or stacks). -/
theorem c3_sampling_deterministic_pure :
    ∀ (w : World) (pos : Vec2) (n : ℕ) (sk : GenericScalarFieldKind)
      (vk : GenericVectorFieldKind),
      ((List.replicate n (w.sample_scalar_field sk pos)).all
        fun x => decide (x = w.sample_scalar_field sk pos)) = true ∧
      ((List.replicate n (w.sample_vector_field vk pos)).all
        fun x => decide (x = w.sample_vector_field vk pos)) = true ∧
      (w.sample_scalar_field_st sk pos).2 = w ∧
      (w.sample_vector_field_st vk pos).2 = w := by
  intro w pos n sk vk
  refine ⟨?_, ?_, rfl, rfl⟩ <;>
  · rw [List.all_eq_true]
    intro x hx
    rw [List.eq_of_mem_replicate hx]
    simp

/-- C4: the word table is total and pure: the vocabulary is a fixed
enumerable set, and every word maps to exactly one Function and exactly
one mana cost. -/
theorem c4_word_table_total :
    (∀ w : Word, w ∈ Word.all) ∧
    (∀ w : Word, ∃! f : Function, w.function = f) ∧
    (∀ w : Word, ∃! c : ℚ, w.cost = c) :=
  ⟨fun w => by cases w <;> decide,
   fun w => ⟨w.function, rfl, fun _ hy => hy.symm⟩,
   fun w => ⟨w.cost, rfl, fun _ hy => hy.symm⟩⟩

/-- C6: Filter gates a vector field by a scalar mask: where the mask
samples at or below zero the result is the zero vector whatever the
vector field holds, and where it samples above zero the vector field's
value passes through unchanged. -/
theorem c6_filter_gates_vector :
    ∀ (v : VectorField) (mask : ScalarField) (w : World) (pid : PersonId) (pos : Vec2),
      (mask.sample_relative w pid pos ≤ 0 →
        (VectorField.Filter v mask).sample_relative w pid pos = (0, 0)) ∧
      (0 < mask.sample_relative w pid pos →
        (VectorField.Filter v mask).sample_relative w pid pos
          = v.sample_relative w pid pos) := by
  intro v mask w pid pos
  constructor
  · intro h
    rw [VectorField.sample_relative, VectorField.sampleAt,
      if_pos (by rwa [ScalarField.sample_relative] at h)]
  · intro h
    rw [VectorField.sample_relative, VectorField.sampleAt,
      if_neg (by rw [not_le]; rwa [ScalarField.sample_relative] at h)]
    rfl

/-- Witness for C6 at concrete inputs: a nonpositive uniform mask blanks
the vector field, a positive one passes it through. -/
theorem c6_witness :
    (VectorField.Filter (.Uniform (1, 2)) (.Uniform (-1))).sample_relative wEx .Player (0, 0)
        = (0, 0) ∧
    (VectorField.Filter (.Uniform (1, 2)) (.Uniform 1)).sample_relative wEx .Player (0, 0)
        = (VectorField.Uniform (1, 2)).sample_relative wEx .Player (0, 0) :=
  ⟨(c6_filter_gates_vector (.Uniform (1, 2)) (.Uniform (-1)) wEx .Player (0, 0)).1
      (by norm_num [ScalarField.sample_relative, ScalarField.sampleAt]),
   (c6_filter_gates_vector (.Uniform (1, 2)) (.Uniform 1) wEx .Player (0, 0)).2
      (by norm_num [ScalarField.sample_relative, ScalarField.sampleAt])⟩

/-- C7: validating the binary homogeneous Add against a one-element
stack reports StackUnderflow, and against a scalar-and-vector pair (in
either order) reports TypeMismatch, never touching the stack. -/
theorem c7_validate_add_errors :
    ∀ (s : ScalarField) (v : VectorField),
      validate_function_use [.Scalar s] (.HomoBin .Add) = .error .StackUnderflow ∧
      validate_function_use [.Scalar s, .Vector v] (.HomoBin .Add) = .error .TypeMismatch ∧
      validate_function_use [.Vector v, .Scalar s] (.HomoBin .Add) = .error .TypeMismatch ∧
      (validate_function_use_st [.Scalar s] (.HomoBin .Add)).2 = [.Scalar s] ∧
      (validate_function_use_st [.Scalar s, .Vector v] (.HomoBin .Add)).2
        = [.Scalar s, .Vector v] :=
  fun _ _ => ⟨rfl, rfl, rfl, rfl, rfl⟩

/-- C8: contains reports per-kind entry presence, not spell presence:
whenever remove succeeds, the per-kind entry survives and contains still
answers true; in particular removing the last Force spell of a caster
leaves an empty entry behind and contains stays true. -/
theorem c8_contains_reports_entry_presence :
    (∀ (s : ActiveSpells) (pid : PersonId) (kind : GenericOutputFieldKind) (i : ℕ)
      (t : ActiveSpells), s.remove pid kind i = some t → t.contains kind = true) ∧
    (spells8.remove .Player (.Vector .Force) 0
        = some ⟨[], [(.Player, [(.Force, [])])]⟩ ∧
      ActiveSpells.contains ⟨[], [(.Player, [(.Force, [])])]⟩ (.Vector .Force) = true) := by
  refine ⟨?_, rfl, rfl⟩
  intro s pid kind i t h
  cases kind with
  | Scalar k =>
    simp only [ActiveSpells.remove] at h
    split at h
    · obtain rfl := (Option.some.inj h).symm
      simp only [ActiveSpells.contains, List.any_eq_true]
      refine ⟨(pid, alSet (alGetD s.scalars pid []) k
        ((alGetD (alGetD s.scalars pid []) k []).eraseIdx i)), mem_alSet_self _ _ _, ?_⟩
      simp [alGet_alSet_self]
    · cases h
  | Vector k =>
    simp only [ActiveSpells.remove] at h
    split at h
    · obtain rfl := (Option.some.inj h).symm
      simp only [ActiveSpells.contains, List.any_eq_true]
      refine ⟨(pid, alSet (alGetD s.vectors pid []) k
        ((alGetD (alGetD s.vectors pid []) k []).eraseIdx i)), mem_alSet_self _ _ _, ?_⟩
      simp [alGet_alSet_self]
    · cases h

/-- Witness for C8 at a concrete registry: removing the only Force spell
of the player succeeds and contains still reports true. -/
theorem c8_witness :
    spells8.remove .Player (.Vector .Force) 0 = some ⟨[], [(.Player, [(.Force, [])])]⟩ ∧
    ActiveSpells.contains ⟨[], [(.Player, [(.Force, [])])]⟩ (.Vector .Force) = true :=
  ⟨rfl, c8_contains_reports_entry_presence.1 spells8 .Player (.Vector .Force) 0
    ⟨[], [(.Player, [(.Force, [])])]⟩ rfl⟩

/-- C9: remove panics (embedded as none) whenever the index is not below
the caster's spell count for that kind; in particular it always panics
for a caster and kind with no registered spells, because the entry is
materialized empty and the vector removal then fails. -/
theorem c9_remove_panics_on_invalid_index :
    ∀ (s : ActiveSpells) (pid : PersonId) (kind : GenericOutputFieldKind) (i : ℕ),
      (s.spell_count pid kind ≤ i → s.remove pid kind i = none) ∧
      (s.spell_count pid kind = 0 → s.remove pid kind i = none) := by
  intro s pid kind i
  cases kind with
  | Scalar k =>
    constructor <;>
    · intro h
      simp only [ActiveSpells.spell_count] at h
      simp only [ActiveSpells.remove]
      rw [if_neg]
      omega
  | Vector k =>
    constructor <;>
    · intro h
      simp only [ActiveSpells.spell_count] at h
      simp only [ActiveSpells.remove]
      rw [if_neg]
      omega

/-- Witness for C9 at the empty registry: removal panics at index 0 and
at index 3. -/
theorem c9_witness :
    ActiveSpells.empty.remove .Player (.Vector .Force) 0 = none ∧
    ActiveSpells.empty.remove .Player (.Vector .Force) 3 = none :=
  ⟨(c9_remove_panics_on_invalid_index ActiveSpells.empty .Player (.Vector .Force) 0).2 rfl,
   (c9_remove_panics_on_invalid_index ActiveSpells.empty .Player (.Vector .Force) 3).2 rfl⟩

lemma elevation_probe_fuel_succ (w : World) (pos : Vec2) (t : ℚ) (n : ℕ) :
    w.elevation_probe_fuel pos t (n + 1) =
      if 0 < t then
        if (w.find_object_filtered_at (pos.1, t) (fun o => o.body_fixed)).isSome then
          some (pos.2 - t)
        else w.elevation_probe_fuel pos (t - 1 / 2) n
      else some pos.2 := rfl

lemma elevation_probe_fuel_spec :
    ∀ (k : ℕ) (w : World) (pos : Vec2) (t : ℚ), (⌈2 * t⌉).toNat ≤ k →
      w.elevation_probe_fuel pos t (k + 1) = some (w.elevation_probe pos t) := by
  intro k
  induction k with
  | zero =>
    intro w pos t hk
    have ht : ¬(0 < t) := by
      intro h0
      have hc : (0 : ℤ) < ⌈2 * t⌉ := Int.ceil_pos.mpr (by linarith)
      omega
    rw [elevation_probe_fuel_succ, if_neg ht, World.elevation_probe, dif_neg ht]
  | succ k ih =>
    intro w pos t hk
    by_cases ht : 0 < t
    · by_cases hf :
        (w.find_object_filtered_at (pos.1, t) (fun o => o.body_fixed)).isSome = true
      · rw [elevation_probe_fuel_succ, if_pos ht, if_pos hf, World.elevation_probe,
          dif_pos ht, if_pos hf]
      · rw [elevation_probe_fuel_succ, if_pos ht, if_neg hf]
        have hm : (⌈2 * (t - 1 / 2)⌉).toNat ≤ k := by
          have hc : ⌈2 * (t - 1 / 2)⌉ = ⌈2 * t⌉ - 1 := by
            have hx : 2 * (t - 1 / 2) = 2 * t - ((1 : ℤ) : ℚ) := by push_cast; ring
            rw [hx, Int.ceil_sub_int]
          have hpos : (0 : ℤ) < ⌈2 * t⌉ := Int.ceil_pos.mpr (by linarith)
          omega
        rw [ih w pos (t - 1 / 2) hm]
        congr 1
        conv_rhs => rw [World.elevation_probe]
        rw [dif_pos ht, if_neg hf]
    · rw [elevation_probe_fuel_succ, if_neg ht, World.elevation_probe, dif_neg ht]

lemma int_log_eq_of_bounds {q : ℚ} {e : ℤ} (h1 : (2 : ℚ) ^ e ≤ q)
    (h2 : q < (2 : ℚ) ^ (e + 1)) : Int.log 2 q = e := by
  have hq : 0 < q := lt_of_lt_of_le (by positivity) h1
  have hl : e ≤ Int.log 2 q := by
    rw [← Int.zpow_le_iff_le_log (by norm_num) hq]
    exact_mod_cast h1
  have hu : Int.log 2 q < e + 1 := by
    rw [← Int.lt_zpow_iff_log_lt (by norm_num) hq]
    exact_mod_cast h2
  omega

/-- The binary32 subtraction of one half is a no-op at two to the 25th:
the exact difference rounds back up to the input. -/
lemma roundF32_stuck : roundF32 ((2 : ℚ) ^ 25 - 1 / 2) = (2 : ℚ) ^ 25 := by
  rw [roundF32, if_neg (by norm_num), if_pos (by norm_num)]
  have he : Int.log 2 ((2 : ℚ) ^ 25 - 1 / 2) = 24 :=
    int_log_eq_of_bounds (by norm_num) (by norm_num)
  simp only [roundF32Pos, he]
  have hu : ((2 : ℚ) ^ ((24 : ℤ) - 23)) = 2 := by norm_num
  rw [hu]
  have hfl : ⌊((2 : ℚ) ^ 25 - 1 / 2) / 2⌋ = 16777215 := by
    rw [Int.floor_eq_iff]
    norm_num
  rw [hfl]
  norm_num

lemma roundF32_eq_self_of_half (q : ℚ) (k : ℤ) (hk : q = k / 2) (h0 : 0 ≤ q)
    (hlt : q < 2 ^ 23) : roundF32 q = q := by
  rcases h0.eq_or_lt with hq0 | hq
  · rw [roundF32, if_pos hq0.symm, hq0]
  · rw [roundF32, if_neg hq.ne', if_pos hq]
    have he1 : (2 : ℚ) ^ Int.log 2 q ≤ q := by
      exact_mod_cast Int.zpow_log_le_self (b := 2) (by norm_num) hq
    have he2 : q < (2 : ℚ) ^ (Int.log 2 q + 1) := by
      exact_mod_cast Int.lt_zpow_succ_log_self (b := 2) (by norm_num) q
    have heub : Int.log 2 q ≤ 22 := by
      by_contra hcon
      push_neg at hcon
      have h23 : (2 : ℚ) ^ (23 : ℤ) ≤ (2 : ℚ) ^ Int.log 2 q :=
        zpow_le_zpow_right₀ (by norm_num) hcon
      have : (2 : ℚ) ^ (23 : ℤ) ≤ q := h23.trans he1
      rw [show ((2 : ℚ) ^ (23 : ℤ)) = 2 ^ (23 : ℕ) by norm_num] at this
      linarith
    obtain ⟨d, hd⟩ : ∃ d : ℕ, Int.log 2 q = 22 - d := ⟨(22 - Int.log 2 q).toNat, by omega⟩
    have hupow : (2 : ℚ) ^ (Int.log 2 q - 23) = ((2 : ℚ) ^ (d + 1))⁻¹ := by
      rw [hd, show (22 : ℤ) - d - 23 = -((d : ℤ) + 1) by ring, zpow_neg,
        show ((d : ℤ) + 1) = ((d + 1 : ℕ) : ℤ) by push_cast; ring, zpow_natCast]
    have hs : q / (2 : ℚ) ^ (Int.log 2 q - 23) = ((k * 2 ^ d : ℤ) : ℚ) := by
      rw [hupow, div_eq_mul_inv, inv_inv, hk]
      push_cast
      rw [pow_succ]
      ring
    simp only [roundF32Pos, hs]
    rw [Int.floor_intCast, sub_self, if_pos (by norm_num)]
    calc ((k * 2 ^ d : ℤ) : ℚ) * (2 : ℚ) ^ (Int.log 2 q - 23)
        = q / (2 : ℚ) ^ (Int.log 2 q - 23) * (2 : ℚ) ^ (Int.log 2 q - 23) := by rw [hs]
      _ = q := div_mul_cancel₀ q (zpow_ne_zero _ (by norm_num))

lemma elevation_probe_f32_fuel_succ (w : World) (pos : Vec2) (t : ℚ) (n : ℕ) :
    w.elevation_probe_f32_fuel pos t (n + 1) =
      if 0 < t then
        if (w.find_object_filtered_at (pos.1, t) (fun o => o.body_fixed)).isSome then
          some (pos.2 - t)
        else w.elevation_probe_f32_fuel pos (roundF32 (t - 1 / 2)) n
      else some pos.2 := rfl

/-- On half-integer test values below two to the 23rd, every binary32
subtraction in the loop is exact, so the faithful f32 probe agrees with
the exact-arithmetic one. -/
lemma elevation_probe_f32_agrees :
    ∀ (n : ℕ) (w : World) (pos : Vec2) (t : ℚ) (k : ℤ), t = k / 2 → 0 ≤ t →
      t < 2 ^ 23 →
      w.elevation_probe_f32_fuel pos t n = w.elevation_probe_fuel pos t n := by
  intro n
  induction n with
  | zero => intro w pos t k _ _ _; rfl
  | succ n ih =>
    intro w pos t k hk h0 hlt
    rw [elevation_probe_f32_fuel_succ, elevation_probe_fuel_succ]
    by_cases ht : 0 < t
    · rw [if_pos ht, if_pos ht]
      by_cases hf :
        (w.find_object_filtered_at (pos.1, t) (fun o => o.body_fixed)).isSome = true
      · rw [if_pos hf, if_pos hf]
      · rw [if_neg hf, if_neg hf]
        have hk1 : (1 : ℤ) ≤ k := by
          by_contra hcon
          push_neg at hcon
          have : t ≤ 0 := by
            rw [hk]
            have : (k : ℚ) ≤ 0 := by exact_mod_cast Int.lt_add_one_iff.mp hcon
            linarith
          exact absurd ht (not_lt.mpr this)
        have hkq : (1 : ℚ) ≤ (k : ℚ) := by exact_mod_cast hk1
        have harg1 : t - 1 / 2 = ((k - 1 : ℤ) : ℚ) / 2 := by
          rw [hk]; push_cast; ring
        have harg2 : 0 ≤ t - 1 / 2 := by rw [hk]; linarith
        have harg3 : t - 1 / 2 < 2 ^ 23 := by linarith
        rw [roundF32_eq_self_of_half _ (k - 1) harg1 harg2 harg3]
        exact ih w pos (t - 1 / 2) (k - 1) harg1 harg2 harg3
    · rw [if_neg ht, if_neg ht]

/-- At position (0, 2 to the 25th) over an empty world the faithful f32
probe makes no progress: the loop is still running after any number of
iterations. -/
lemma elevation_probe_f32_stuck :
    ∀ n : ℕ, wEx.elevation_probe_f32_fuel (0, (2 : ℚ) ^ 25) ((2 : ℚ) ^ 25) n = none := by
  intro n
  induction n with
  | zero => rfl
  | succ n ih =>
    rw [elevation_probe_f32_fuel_succ, if_pos (by norm_num),
      if_neg (by rw [show wEx.find_object_filtered_at (((0 : ℚ), (2 : ℚ) ^ 25).1, (2 : ℚ) ^ 25)
          (fun o => o.body_fixed) = none from rfl]; simp)]
    rw [roundF32_stuck]
    exact ih

/-- C10 (as amended): Elevation sampling returns the sample y
immediately when it is not positive, and the downward probe terminates
within an explicit ceil-bounded number of iterations whenever the
starting y is a half-integer below two to the 23rd — the range in which
the binary32 subtraction test.y -= 0.5 is exact.  Beyond that range the
original claim fails: at y equal to two to the 25th the subtraction
rounds back to its input and the loop never terminates. -/
theorem c10_elevation_termination_bounded :
    (∀ (w : World) (pos : Vec2), pos.2 ≤ 0 →
      w.sample_input_scalar_field .Elevation pos = pos.2) ∧
    (∀ (w : World) (pos : Vec2) (k : ℤ), pos.2 = k / 2 → 0 ≤ pos.2 →
      pos.2 < 2 ^ 23 →
      w.elevation_probe_f32_fuel pos pos.2 ((⌈2 * pos.2⌉).toNat + 1)
        = some (w.elevation_probe pos pos.2)) ∧
    (roundF32 ((2 : ℚ) ^ 25 - 1 / 2) = (2 : ℚ) ^ 25) ∧
    (∀ n : ℕ,
      wEx.elevation_probe_f32_fuel (0, (2 : ℚ) ^ 25) ((2 : ℚ) ^ 25) n = none) := by
  refine ⟨?_, ?_, roundF32_stuck, elevation_probe_f32_stuck⟩
  · intro w pos h
    show w.elevation_probe pos pos.2 = pos.2
    rw [World.elevation_probe, dif_neg (not_lt.mpr h)]
  · intro w pos k hk h0 hlt
    rw [elevation_probe_f32_agrees _ w pos pos.2 k hk h0 hlt]
    exact elevation_probe_fuel_spec _ w pos pos.2 le_rfl

/-- Witness for C10 (amended) at concrete inputs: a position below
ground returns its y, and a half-integer starting height terminates
within the bound. -/
theorem c10_witness :
    wEx.sample_input_scalar_field .Elevation (0, -1) = -1 ∧
    wEx.elevation_probe_f32_fuel (0, 3 / 2) (3 / 2) ((⌈2 * (3 / 2 : ℚ)⌉).toNat + 1)
      = some (wEx.elevation_probe (0, 3 / 2) (3 / 2)) :=
  ⟨c10_elevation_termination_bounded.1 wEx (0, -1) (by norm_num),
   c10_elevation_termination_bounded.2.1 wEx (0, 3 / 2) 3 (by norm_num) (by norm_num)
     (by norm_num)⟩

/-- Counterexample for C10 as stated: at position (0, 2 to the 25th)
the binary32 subtraction of one half returns its own input, so the
probe loop makes no progress, and it is still running even after the
number of iterations the claim's decrease-by-one-half argument would
bound it by. -/
theorem c10_counterexample :
    roundF32 ((2 : ℚ) ^ 25 - 1 / 2) = (2 : ℚ) ^ 25 ∧
    (0 : ℚ) < (2 : ℚ) ^ 25 ∧
    wEx.elevation_probe_f32_fuel (0, (2 : ℚ) ^ 25) ((2 : ℚ) ^ 25)
      ((⌈2 * ((2 : ℚ) ^ 25)⌉).toNat + 1) = none :=
  ⟨roundF32_stuck, by norm_num, elevation_probe_f32_stuck _⟩

lemma alGet_isSome_key_mem {κ β : Type} [DecidableEq κ] {l : List (κ × β)} {k : κ}
    {v : β} (h : alGet l k = some v) : k ∈ l.map Prod.fst := by
  induction l with
  | nil => cases h
  | cons e es ih =>
    by_cases he : e.1 = k
    · simp [he.symm]
    · rw [alGet, if_neg he] at h
      simp [ih h]

lemma personGet_mem_person_ids (w : World) (id : PersonId) (p : Person)
    (h : w.personGet id = some p) : id ∈ w.person_ids := by
  cases id with
  | Player => exact List.mem_cons_self _ _
  | Npc n =>
    apply List.mem_cons_of_mem
    obtain ⟨e, he, hfst⟩ := List.mem_map.mp (alGet_isSome_key_mem h)
    exact List.mem_map.mpr ⟨e, he, by rw [hfst]⟩

lemma update_person_spells_ne (w : World) (work : ℚ) (j id : PersonId) (hne : id ≠ j) :
    alGetD (w.update_person work j).active_spells.scalars id []
        = alGetD w.active_spells.scalars id [] ∧
    alGetD (w.update_person work j).active_spells.vectors id []
        = alGetD w.active_spells.vectors id [] := by
  cases h : w.personGet j with
  | none =>
    rw [World.update_person, h]
    exact ⟨rfl, rfl⟩
  | some p0 =>
    rw [World.update_person_active_spells w work j p0 h]
    constructor <;> simp [alGetD, alGet_alSet_ne _ _ _ _ hne]

lemma update_person_spells_self_nil (w : World) (work : ℚ) (id : PersonId) (p0 : Person)
    (h : w.personGet id = some p0) (hc : (p0.do_work work).can_cast = false) :
    alGetD (w.update_person work id).active_spells.scalars id [] = [] ∧
    alGetD (w.update_person work id).active_spells.vectors id [] = [] := by
  rw [World.update_person_active_spells w work id p0 h, hc]
  constructor <;> simp [alGetD, alGet_alSet_self]

lemma update_person_spells_self_pres (w : World) (work : ℚ) (id : PersonId)
    (h1 : alGetD w.active_spells.scalars id [] = [])
    (h2 : alGetD w.active_spells.vectors id [] = []) :
    alGetD (w.update_person work id).active_spells.scalars id [] = [] ∧
    alGetD (w.update_person work id).active_spells.vectors id [] = [] := by
  cases h : w.personGet id with
  | none =>
    rw [World.update_person, h]
    exact ⟨h1, h2⟩
  | some p0 =>
    rw [World.update_person_active_spells w work id p0 h, h1, h2]
    constructor <;> simp [alGetD, alGet_alSet_self, ite_self]

lemma update_fold_pres (work : ℚ) (id : PersonId) :
    ∀ (ids : List PersonId) (w : World),
      alGetD w.active_spells.scalars id [] = [] →
      alGetD w.active_spells.vectors id [] = [] →
      alGetD (ids.foldl (fun a j => a.update_person work j) w).active_spells.scalars id []
          = [] ∧
      alGetD (ids.foldl (fun a j => a.update_person work j) w).active_spells.vectors id []
          = [] := by
  intro ids
  induction ids with
  | nil => exact fun w h1 h2 => ⟨h1, h2⟩
  | cons j rest ih =>
    intro w h1 h2
    rw [List.foldl_cons]
    by_cases hj : id = j
    · subst hj
      have hp := update_person_spells_self_pres w work id h1 h2
      exact ih _ hp.1 hp.2
    · have hp := update_person_spells_ne w work j id hj
      exact ih _ (hp.1.trans h1) (hp.2.trans h2)

lemma update_fold_main (work : ℚ) (id : PersonId) (p : Person) :
    ∀ (ids : List PersonId) (w : World), id ∈ ids →
      w.personGet id = some p → (p.do_work work).can_cast = false →
      alGetD (ids.foldl (fun a j => a.update_person work j) w).active_spells.scalars id []
          = [] ∧
      alGetD (ids.foldl (fun a j => a.update_person work j) w).active_spells.vectors id []
          = [] := by
  intro ids
  induction ids with
  | nil => intro w hmem; cases hmem
  | cons j rest ih =>
    intro w hmem hget hc
    rw [List.foldl_cons]
    by_cases hj : id = j
    · subst hj
      have hcl := update_person_spells_self_nil w work id p hget hc
      exact update_fold_pres work id rest _ hcl.1 hcl.2
    · have hmem2 : id ∈ rest := (List.mem_cons.mp hmem).resolve_left hj
      have hget2 : (w.update_person work j).personGet id = some p := by
        rw [World.update_person_personGet_ne w work j id hj]
        exact hget
      exact ih _ hmem2 hget2 hc

/-- C2 (as amended): when the update step finds a caster unable to cast,
both of that caster's registry maps come out empty; contains, being
global across casters, then answers false for every kind in a world
where that caster is the only one registered. -/
theorem c2_clear_on_cast_failure :
    ∀ (w : World) (work : ℚ) (id : PersonId) (p : Person),
      w.personGet id = some p → (p.do_work work).can_cast = false →
      alGetD (w.update work).active_spells.scalars id [] = [] ∧
      alGetD (w.update work).active_spells.vectors id [] = [] ∧
      (w.npcs = [] → id = .Player →
        (∀ e ∈ w.active_spells.vectors, e.1 = PersonId.Player) →
        ∀ kind, (w.update work).active_spells.contains kind = false) := by
  intro w work id p hget hc
  have hmem := personGet_mem_person_ids w id p hget
  have hmain := update_fold_main work id p w.person_ids w hmem hget hc
  refine ⟨hmain.1, hmain.2, ?_⟩
  intro hnp hid hkv kind
  subst hid
  have hupd : w.update work = w.update_person work .Player := by
    rw [World.update, World.person_ids, hnp]
    rfl
  rw [hupd]
  cases kind with
  | Scalar k => cases k
  | Vector k =>
    have hgetP : w.personGet .Player = some p := hget
    rw [show ActiveSpells.contains (w.update_person work PersonId.Player).active_spells
          (.Vector k)
        = (w.update_person work PersonId.Player).active_spells.vectors.any
            (fun e => (alGet e.2 k).isSome) from rfl]
    rw [World.update_person_active_spells w work .Player p hgetP, hc]
    have hall := alSet_snd_of_keys_eq (v := ([] : List (VectorOutputFieldKind ×
      List (ActiveSpell VectorField)))) hkv
    rw [List.any_eq_false]
    intro e he
    have h2 : e.2 = [] := by
      apply hall
      simpa using he
    rw [h2]
    simp [alGet]

/-- A single-caster world whose mana-exhausted player holds one active
Force spell. -/
def wS : World :=
  { player := { mana := 0, max_mana := 5, field_scale := 1 },
    npcs := [], objects := [],
    active_spells := ⟨[], [(.Player, [(.Force, [spellForce])])]⟩,
    controls := ⟨none, none⟩ }

/-- Witness for C2 (amended) at a concrete single-caster world. -/
theorem c2_witness :
    alGetD (wS.update 0).active_spells.vectors .Player [] = [] ∧
    (wS.update 0).active_spells.contains (.Vector .Force) = false := by
  have h := c2_clear_on_cast_failure wS 0 .Player wS.player rfl
    (by norm_num [Person.do_work, Person.can_cast, wS])
  refine ⟨h.2.1, h.2.2 rfl rfl ?_ (.Vector .Force)⟩
  intro e he
  rw [List.mem_singleton.mp he]

/-- Counterexample for C2 as stated: in a two-caster world where the
mana-exhausted player had a Force spell registered, contains(Force) is
still true after the update, because the healthy NPC's entry of the same
kind remains. -/
theorem c2_counterexample :
    (w2c.player.do_work 0).can_cast = false ∧
    (alGet (alGetD w2c.active_spells.vectors .Player []) .Force).isSome = true ∧
    (w2c.update 0).active_spells.contains (.Vector .Force) = true := by
  refine ⟨by norm_num [Person.do_work, Person.can_cast, w2c], rfl, ?_⟩
  have hcP : (w2c.player.do_work 0).can_cast = false := by
    norm_num [Person.do_work, Person.can_cast, w2c]
  have h1 : (w2c.update_person 0 .Player).active_spells =
      ⟨alSet w2c.active_spells.scalars .Player [],
       alSet w2c.active_spells.vectors .Player []⟩ := by
    rw [World.update_person_active_spells w2c 0 .Player w2c.player rfl, hcP]
    simp
  have hN : (w2c.update_person 0 .Player).personGet (.Npc 0) = some ⟨10, 10, 1⟩ := by
    rw [World.update_person_personGet_ne w2c 0 .Player (.Npc 0) (by simp)]
    rfl
  have hcN : ((⟨10, 10, 1⟩ : Person).do_work 0).can_cast = true := by
    norm_num [Person.do_work, Person.can_cast]
  have h2 : ((w2c.update_person 0 .Player).update_person 0 (.Npc 0)).active_spells.vectors =
      alSet (alSet w2c.active_spells.vectors .Player []) (.Npc 0)
        (alGetD (alSet w2c.active_spells.vectors .Player []) (.Npc 0) []) := by
    rw [World.update_person_active_spells _ 0 (.Npc 0) ⟨10, 10, 1⟩ hN, hcN]
    simp [h1]
  rw [show w2c.update 0 = (w2c.update_person 0 .Player).update_person 0 (.Npc 0) from rfl]
  show (((w2c.update_person 0 .Player).update_person 0 (.Npc 0)).active_spells.vectors.any
    fun e => (alGet e.2 .Force).isSome) = true
  rw [h2]
  rfl

lemma setBodyForce_cons (e : ℕ × PBody) (es : List (ℕ × PBody)) (h : ℕ) (v : Vec2) :
    setBodyForce (e :: es) h v =
      (if e.1 = h then (e.1, ⟨v⟩) else e) :: setBodyForce es h v := by
  simp [setBodyForce]

lemma alGet_setBodyForce_self {bs : List (ℕ × PBody)} {h : ℕ} (v : Vec2)
    (hs : (alGet bs h).isSome = true) :
    alGet (setBodyForce bs h v) h = some ⟨v⟩ := by
  induction bs with
  | nil => simp [alGet] at hs
  | cons e es ih =>
    rw [setBodyForce_cons]
    by_cases he : e.1 = h
    · rw [if_pos he, alGet, if_pos he]
    · rw [if_neg he, alGet, if_neg he]
      rw [alGet, if_neg he] at hs
      exact ih hs

lemma alGet_setBodyForce_none {bs : List (ℕ × PBody)} {h : ℕ} (v : Vec2)
    (hg : alGet bs h = none) :
    alGet (setBodyForce bs h v) h = none := by
  induction bs with
  | nil => rfl
  | cons e es ih =>
    rw [setBodyForce_cons]
    by_cases he : e.1 = h
    · rw [alGet, if_pos he] at hg; cases hg
    · rw [if_neg he, alGet, if_neg he]
      rw [alGet, if_neg he] at hg
      exact ih hg

lemma alGet_setBodyForce_ne {bs : List (ℕ × PBody)} {h h0 : ℕ} (v : Vec2)
    (hne : h ≠ h0) :
    alGet (setBodyForce bs h0 v) h = alGet bs h := by
  induction bs with
  | nil => rfl
  | cons e es ih =>
    rw [setBodyForce_cons]
    by_cases he : e.1 = h0
    · have hej : ¬(e.1 = h) := by rw [he]; exact fun h2 => hne h2.symm
      rw [if_pos he, alGet, if_neg hej, alGet, if_neg hej, ih]
    · rw [if_neg he, alGet, alGet, ih]

lemma isSome_setBodyForce (bs : List (ℕ × PBody)) (h h0 : ℕ) (v : Vec2) :
    (alGet (setBodyForce bs h0 v) h).isSome = (alGet bs h).isSome := by
  by_cases hne : h = h0
  · subst hne
    cases hg : alGet bs h with
    | some b =>
      rw [alGet_setBodyForce_self v (by rw [hg]; rfl)]
      rfl
    | none => rw [alGet_setBodyForce_none v hg]
  · rw [alGet_setBodyForce_ne v hne]

lemma fold_setBody_preserve (f : VectorField) (h : ℕ) :
    ∀ (objs : List (ℕ × PObject)) (bs : List (ℕ × PBody)),
      h ∉ objs.map Prod.fst →
      alGet (objs.foldl (fun bs ho => setBodyForce bs ho.1 (f.sampleAt ho.2.pos)) bs) h
        = alGet bs h := by
  intro objs
  induction objs with
  | nil => intro bs _; rfl
  | cons x rest ih =>
    intro bs hnotin
    rw [List.map_cons] at hnotin
    have hx : h ≠ x.1 := fun h2 => hnotin (h2 ▸ List.mem_cons_self _ _)
    have hrest : h ∉ rest.map Prod.fst := fun h2 => hnotin (List.mem_cons_of_mem _ h2)
    rw [List.foldl_cons, ih _ hrest, alGet_setBodyForce_ne _ hx]

lemma fold_setBody_main (f : VectorField) :
    ∀ (objs : List (ℕ × PObject)) (bs : List (ℕ × PBody)) (h : ℕ) (o : PObject),
      (h, o) ∈ objs → (objs.map Prod.fst).Nodup → (alGet bs h).isSome = true →
      alGet (objs.foldl (fun bs ho => setBodyForce bs ho.1 (f.sampleAt ho.2.pos)) bs) h
        = some ⟨f.sampleAt o.pos⟩ := by
  intro objs
  induction objs with
  | nil => intro bs h o hmem; cases hmem
  | cons x rest ih =>
    intro bs h o hmem hnd hs
    rw [List.map_cons, List.nodup_cons] at hnd
    rw [List.foldl_cons]
    rcases List.mem_cons.mp hmem with hx | hmem2
    · have hx1 : x.1 = h := by rw [← hx]
      have hx2 : x.2 = o := by rw [← hx]
      have hnotin : h ∉ rest.map Prod.fst := hx1 ▸ hnd.1
      rw [fold_setBody_preserve f h rest _ hnotin, hx1, hx2,
        alGet_setBodyForce_self _ hs]
    · have hinmap : h ∈ rest.map Prod.fst := List.mem_map.mpr ⟨(h, o), hmem2, rfl⟩
      have hx1 : h ≠ x.1 := fun h2 => hnd.1 (h2 ▸ hinmap)
      have hs2 : (alGet (setBodyForce bs x.1 (f.sampleAt x.2.pos)) h).isSome = true := by
        rw [isSome_setBodyForce]
        exact hs
      exact ih _ h o hmem2 hnd.2 hs2

/-- C5 (as amended): when a Force output vector field is committed, the
force phase of run_physics resets every body's forces and adds the
field's sample at the body's recorded position, before the physics
step; when none is committed, forces are left untouched. -/
theorem c5_forces_from_force_field :
    ∀ (g : PGame) (f : VectorField), alGet g.outputs.vectors .Force = some f →
      ∀ (h : ℕ) (o : PObject), (h, o) ∈ g.objects →
        (g.objects.map Prod.fst).Nodup → (alGet g.bodies h).isSome = true →
        alGet (run_physics_forces g).bodies h = some ⟨f.sampleAt o.pos⟩ := by
  intro g f hf h o hmem hnd hs
  rw [run_physics_forces, hf]
  exact fold_setBody_main f g.objects g.bodies h o hmem hnd hs

/-- Witness for C5 (amended): with a committed uniform Force field, the
body's force becomes the field's sample at the object's position. -/
theorem c5_witness : alGet (run_physics_forces g2).bodies 0 = some ⟨(0, 1)⟩ :=
  c5_forces_from_force_field g2 (.Uniform (0, 1)) rfl 0 ⟨(2, 3)⟩
    (List.mem_cons_self _ _) (by simp [g2]) rfl

/-- Counterexample for C5 as stated: with no committed Force field, the
force phase leaves a stale body force in place instead of resetting it
to the (zero) Force sample. -/
theorem c5_counterexample :
    alGet gEx.outputs.vectors .Force = none ∧
    OutputFields.sample_force gEx.outputs (0, 0) = (0, 0) ∧
    alGet (run_physics_forces gEx).bodies 0 = some ⟨(1, 0)⟩ ∧
    (⟨(1, 0)⟩ : PBody) ≠ ⟨(0, 0)⟩ := by
  refine ⟨rfl, rfl, rfl, ?_⟩
  intro hcontra
  rw [PBody.mk.injEq, Prod.ext_iff] at hcontra
  exact absurd hcontra.1 (by norm_num)

end Eidos
